import Mathlib

/-!
Shallow embedding of the file-scanning core of the TextSearch and
PROC COMPARE checker tool. Strings are modelled through their character
lists; the Python string operations used by the tool (lower, strip,
endswith, substring containment, str.join) are embedded as executable
functions on those lists. File system effects are modelled by records
carrying the outcome of each possible read: a text file is a list of
lines (or none when opening fails), a paginated document is a list of
page texts (or none when the document cannot be opened).
-/

namespace TSCC

/-- Whitespace as the regular-expression class and the strip method treat
it (ASCII part): space, tab, carriage return, line feed, vertical tab and
form feed. -/
def pySpace (c : Char) : Bool :=
  c.isWhitespace || c == '\x0b' || c == '\x0c'

/-- Does the second list start with the first one? Character lists are
compared positionally. -/
def frontMatch : List Char → List Char → Bool
  | [], _ => true
  | _ :: _, [] => false
  | a :: l₁, b :: l₂ => a == b && frontMatch l₁ l₂

/-- Substring containment on character lists, the semantics of the
membership test on Python strings: the needle occurs contiguously
somewhere in the haystack. The empty needle is contained everywhere. -/
def hasSub (needle : List Char) : List Char → Bool
  | [] => needle.isEmpty
  | c :: t => frontMatch needle (c :: t) || hasSub needle t

/-- Containment of a needle string in a haystack string. -/
def strContains (hay needle : String) : Bool :=
  hasSub needle.data hay.data

/-- Lowercasing a string character by character. -/
def strLower (s : String) : String :=
  ⟨s.data.map Char.toLower⟩

/-- Removing leading and trailing whitespace, the strip method. -/
def strTrim (s : String) : String :=
  ⟨((s.data.dropWhile pySpace).reverse.dropWhile pySpace).reverse⟩

/-- Suffix test on strings, the endswith method. -/
def strEndsWith (s t : String) : Bool :=
  frontMatch t.data.reverse s.data.reverse

/-- Joining a list of strings with a separator, the str.join method. -/
def strJoin (sep : String) (parts : List String) : String :=
  ⟨List.intercalate sep.data (parts.map String.data)⟩

/-- The marker phrase of the classification regular expression, written
in lowercase: matching against it is case-insensitive. -/
def lowerPhrase : List Char :=
  "number of observations with some compared variables unequal:".data

/-- Match a lowercase pattern against the front of a text, folding the
case of the text characters; returns the remainder after the pattern on
success. -/
def matchPhraseAt : List Char → List Char → Option (List Char)
  | [], l => some l
  | _ :: _, [] => none
  | p :: ps, c :: cs => if c.toLower == p then matchPhraseAt ps cs else none

/-- Decimal value of a run of digit characters. -/
def digitsToNat (ds : List Char) : Nat :=
  ds.foldl (fun a c => a * 10 + (c.toNat - 48)) 0

/-- After the phrase, the regular expression demands one or more
whitespace characters followed by one or more digits, the digits being
captured greedily. -/
def matchAfter (r : List Char) : Option Nat :=
  let ws := r.takeWhile pySpace
  let rest := r.dropWhile pySpace
  let ds := rest.takeWhile Char.isDigit
  if ws.isEmpty then none
  else if ds.isEmpty then none
  else some (digitsToNat ds)

/-- Attempt the whole pattern at one position of the text. -/
def attemptAt (l : List Char) : Option Nat :=
  (matchPhraseAt lowerPhrase l).bind matchAfter

/-- Leftmost search of the pattern over the text, the semantics of
re.search with the IGNORECASE flag. -/
def findMarkerAux : List Char → Option Nat
  | [] => attemptAt []
  | c :: t =>
    match attemptAt (c :: t) with
    | some n => some n
    | none => findMarkerAux t

/-- The captured unequal count of the first occurrence of the marker
pattern in a content string, if any. -/
def findMarker (s : String) : Option Nat :=
  findMarkerAux s.data

/-- Declarative reading of the marker pattern: the content contains,
case-insensitively, the literal phrase followed by one or more
whitespace characters and one or more decimal digits. -/
def markerPresent (s : String) : Prop :=
  ∃ pre seg ws ds post,
    s.data = pre ++ seg ++ ws ++ ds ++ post ∧
    seg.map Char.toLower = lowerPhrase ∧
    ws ≠ [] ∧ (∀ c ∈ ws, pySpace c = true) ∧
    ds ≠ [] ∧ (∀ c ∈ ds, c.isDigit = true)

/-- A file as the text search sees it: its walk path and, when it can be
opened, its list of lines (decoding errors are ignored by the reader, so
opening yields some list exactly when no I/O error occurs). -/
structure SFile where
  name : String
  lines : Option (List String)
deriving DecidableEq

/-- One emitted search result: file path, 1-based line number, and the
line content with surrounding whitespace stripped. -/
structure SearchMatch where
  filePath : String
  lineNumber : Nat
  lineText : String
deriving DecidableEq

/-- Output of one text search run: the emitted matches in order, the
match count, the scanned file count, and the status label text. -/
structure SearchOut where
  results : List SearchMatch
  count : Nat
  total : Nat
  statusText : String
deriving DecidableEq

/-- The two filename filters of the text search: the selected extension
(or the sentinel) against the lowercased name, then the fixed allow-list
of the three searchable extensions. -/
def qualifiesSearch (ext name : String) : Bool :=
  (ext == "All" || strEndsWith (strLower name) ext) &&
    (strEndsWith (strLower name) (".sas") || strEndsWith (strLower name) (".txt") ||
      strEndsWith (strLower name) (".log"))

/-- Scan the lines of one file, 1-indexed from the given start index:
a line is emitted when its lowercased text contains the search term. -/
def searchLinesAux (term path : String) : Nat → List String → List SearchMatch
  | _, [] => []
  | i, l :: rest =>
    (if strContains (strLower l) term then [⟨path, i, strTrim l⟩] else []) ++
      searchLinesAux term path (i + 1) rest

/-- One step of the text search walk: a qualifying file is counted, then
opened; when opening fails the walk moves on with the count kept. -/
def searchStep (term ext : String) (acc : SearchOut) (f : SFile) : SearchOut :=
  if qualifiesSearch ext f.name then
    match f.lines with
    | none => { acc with total := acc.total + 1 }
    | some ls =>
      let ms := searchLinesAux term f.name 1 ls
      { acc with
          results := acc.results ++ ms,
          count := acc.count + ms.length,
          total := acc.total + 1 }
  else acc

/-- The text search operation: the raw input is stripped and lowercased,
the folder must be a directory, and every file of the walk is processed
in order; the status label reports the totals. -/
def run_text_search (isdir : Bool) (files : List SFile) (rawInput ext : String) : SearchOut :=
  let term := strLower (strTrim rawInput)
  if isdir then
    let o := files.foldl (searchStep term ext) ⟨[], 0, 0, ""⟩
    { o with
        statusText :=
          "✅ Found " ++ toString o.count ++ " matches in " ++ toString o.total ++ " file(s)" }
  else ⟨[], 0, 0, "⚠️ Invalid folder"⟩

/-- The matches one file contributes to a text search run. -/
def fileMatches (term ext : String) (f : SFile) : List SearchMatch :=
  if qualifiesSearch ext f.name then
    match f.lines with
    | some ls => searchLinesAux term f.name 1 ls
    | none => []
  else []

/-- Classification status of a comparison report. -/
inductive Status where
  | Passed
  | Failed
deriving DecidableEq

/-- Status from the captured unequal count: zero passes. -/
def statusOf (n : Nat) : Status :=
  if n = 0 then Status.Passed else Status.Failed

/-- The status as the display and the status filter spell it. -/
def statusStr : Status → String
  | Status.Passed => "Passed"
  | Status.Failed => "Failed"

/-- Display colour of a status row. -/
def colorOf : Status → String
  | Status.Passed => "#c6f6c6"
  | Status.Failed => "#f6c6c6"

/-- One displayed classification row. -/
structure ComparisonResult where
  filePath : String
  status : Status
  unequalCount : Nat
  color : String
deriving DecidableEq

/-- The row built for a classified file from its captured count. -/
def mkResult (path : String) (n : Nat) : ComparisonResult :=
  ⟨path, statusOf n, n, colorOf (statusOf n)⟩

/-- A file as the comparison checker sees it: its walk path, the page
texts obtained when it is opened as a paginated document (none when that
open fails), and the content obtained when it is read as plain text with
decoding errors ignored (none when that read fails). -/
structure CFile where
  name : String
  pages : Option (List String)
  text : Option String
deriving DecidableEq

/-- The extension filter of the comparison checker: the sentinel admits
every file, with no further allow-list. -/
def qualifiesCmp (ext name : String) : Bool :=
  ext == "All" || strEndsWith (strLower name) ext

/-- Full text extraction of one file: a name ending in the paginated
extension (a case-sensitive test in the code) is opened as a document
and its page texts are joined with newlines; any other file is read
whole as text. -/
def extractContent (f : CFile) : Option String :=
  if strEndsWith f.name (".pdf") then f.pages.map (strJoin ("\n"))
  else f.text

/-- The captured unequal count of a file, when extraction succeeds and
the marker pattern occurs in the extracted text. -/
def fileClass (f : CFile) : Option Nat :=
  (extractContent f).bind findMarker

/-- Output of one comparison checker run: the displayed rows in order,
the three counters, and the status label text. -/
structure CompareOut where
  displayed : List ComparisonResult
  passed : Nat
  failed : Nat
  total : Nat
  statusText : String
deriving DecidableEq

/-- One step of the comparison walk: a qualifying file whose extraction
and pattern match succeed is classified; the counters grow regardless of
the status filter, the display row only when the filter admits the
status. -/
def cmpStep (ext filterStatus : String) (acc : CompareOut) (f : CFile) : CompareOut :=
  if qualifiesCmp ext f.name then
    match fileClass f with
    | some n =>
      { displayed :=
          if filterStatus == "All" || filterStatus == statusStr (statusOf n) then
            acc.displayed ++ [mkResult f.name n]
          else acc.displayed,
        passed := acc.passed + (if statusOf n = Status.Passed then 1 else 0),
        failed := acc.failed + (if statusOf n = Status.Passed then 0 else 1),
        total := acc.total + 1,
        statusText := acc.statusText }
    | none => acc
  else acc

/-- The comparison checker operation: the folder must be a directory,
every file of the walk is processed in order, and the status label
reports the three counters. -/
def run_compare_check (isdir : Bool) (files : List CFile) (ext filterStatus : String) :
    CompareOut :=
  if isdir then
    let o := files.foldl (cmpStep ext filterStatus) ⟨[], 0, 0, 0, ""⟩
    { o with
        statusText :=
          "🧾 Scanned " ++ toString o.total ++ " files → ✅ " ++ toString o.passed ++
            " Passed | ❌ " ++ toString o.failed ++ " Failed" }
  else ⟨[], 0, 0, 0, "⚠️ Invalid folder"⟩

/-- The display rows one file contributes to a comparison run. -/
def dispOf (ext filterStatus : String) (f : CFile) : List ComparisonResult :=
  if qualifiesCmp ext f.name then
    match fileClass f with
    | some n =>
      if filterStatus == "All" || filterStatus == statusStr (statusOf n) then
        [mkResult f.name n]
      else []
    | none => []
  else []

/-- A file counted as passed: qualifying, classified, count zero. -/
def passedP (ext : String) (f : CFile) : Bool :=
  qualifiesCmp ext f.name &&
    (match fileClass f with
     | some n => decide (n = 0)
     | none => false)

/-- A file counted as failed: qualifying, classified, count nonzero. -/
def failedP (ext : String) (f : CFile) : Bool :=
  qualifiesCmp ext f.name &&
    (match fileClass f with
     | some n => decide (n ≠ 0)
     | none => false)

/-- A file counted at all: qualifying and classified. -/
def classifiedP (ext : String) (f : CFile) : Bool :=
  qualifiesCmp ext f.name && (fileClass f).isSome

/-- The front match succeeds exactly when the haystack starts with the
needle. -/
theorem frontMatch_iff (n : List Char) : ∀ h, frontMatch n h = true ↔ ∃ r, h = n ++ r := by
  induction n with
  | nil => intro h; simp [frontMatch]
  | cons a l₁ ih =>
    intro h
    cases h with
    | nil =>
      simp [frontMatch]
    | cons b l₂ =>
      simp only [frontMatch, Bool.and_eq_true, beq_iff_eq, ih, List.cons_append]
      constructor
      · rintro ⟨rfl, r, rfl⟩
        exact ⟨r, rfl⟩
      · rintro ⟨r, hr⟩
        injection hr with h1 h2
        exact ⟨h1.symm, r, h2⟩

/-- Substring containment succeeds exactly when the haystack decomposes
around the needle. -/
theorem hasSub_iff (n : List Char) : ∀ h, hasSub n h = true ↔ ∃ p r, h = p ++ n ++ r := by
  intro h
  induction h with
  | nil =>
    simp only [hasSub, List.isEmpty_iff]
    constructor
    · rintro rfl
      exact ⟨[], [], rfl⟩
    · rintro ⟨p, r, hpr⟩
      rcases List.append_eq_nil.mp hpr.symm with ⟨h1, h2⟩
      exact (List.append_eq_nil.mp h1).2
  | cons c t ih =>
    simp only [hasSub, Bool.or_eq_true, frontMatch_iff, ih]
    constructor
    · rintro (⟨r, hr⟩ | ⟨p, r, hpr⟩)
      · exact ⟨[], r, by simpa using hr⟩
      · exact ⟨c :: p, r, by simp [hpr]⟩
    · rintro ⟨p, r, hpr⟩
      cases p with
      | nil => exact Or.inl ⟨r, by simpa using hpr⟩
      | cons d p =>
        injection hpr with h1 h2
        exact Or.inr ⟨p, r, by simp [h2]⟩

/-- The phrase matcher succeeds exactly when the text starts with a
segment whose lowercase image is the pattern, returning the rest. -/
theorem matchPhraseAt_iff (ps : List Char) :
    ∀ l r, matchPhraseAt ps l = some r ↔ ∃ seg, l = seg ++ r ∧ seg.map Char.toLower = ps := by
  induction ps with
  | nil =>
    intro l r
    simp only [matchPhraseAt, Option.some_inj]
    constructor
    · rintro rfl
      exact ⟨[], rfl, rfl⟩
    · rintro ⟨seg, hl, hseg⟩
      rw [List.map_eq_nil_iff.mp hseg] at hl
      simpa using hl
  | cons p ps ih =>
    intro l r
    cases l with
    | nil =>
      simp only [matchPhraseAt]
      constructor
      · intro hc
        exact absurd hc (by simp)
      · rintro ⟨seg, hl, hseg⟩
        rcases List.append_eq_nil.mp hl.symm with ⟨h1, _⟩
        rw [h1] at hseg
        simp at hseg
    | cons c cs =>
      simp only [matchPhraseAt]
      by_cases hc : c.toLower = p
      · simp only [hc, beq_self_eq_true, if_true, ih]
        constructor
        · rintro ⟨seg, rfl, hseg⟩
          exact ⟨c :: seg, rfl, by simp [hseg, hc]⟩
        · rintro ⟨seg, hl, hseg⟩
          cases seg with
          | nil => simp at hseg
          | cons d seg =>
            injection hl with h1 h2
            injection hseg with h3 h4
            exact ⟨seg, by simp [h2], h4⟩
      · have : (c.toLower == p) = false := by simpa using hc
        simp only [this, if_false]
        constructor
        · intro hn
          exact absurd hn (by simp)
        · rintro ⟨seg, hl, hseg⟩
          cases seg with
          | nil => simp at hseg
          | cons d seg =>
            injection hl with h1 h2
            injection hseg with h3 h4
            rw [← h1] at h3
            exact absurd h3 hc

/-- Unfolding of the whitespace class into its six characters. -/
theorem pySpace_iff (c : Char) :
    pySpace c = true ↔
      c = ' ' ∨ c = '\t' ∨ c = '\r' ∨ c = '\n' ∨ c = '\x0b' ∨ c = '\x0c' := by
  simp only [pySpace, Char.isWhitespace, Bool.or_eq_true, beq_iff_eq, decide_eq_true_eq]
  tauto

/-- A digit character is not whitespace. -/
theorem isDigit_not_pySpace (c : Char) (h : c.isDigit = true) : pySpace c = false := by
  by_contra hc
  rw [Bool.not_eq_false] at hc
  rcases (pySpace_iff c).mp hc with rfl | rfl | rfl | rfl | rfl | rfl <;>
    exact absurd h (by decide)

/-- takeWhile over an append whose left part satisfies the predicate. -/
theorem takeWhile_all_app {α : Type} (p : α → Bool) (l₁ l₂ : List α)
    (h : ∀ c ∈ l₁, p c = true) :
    (l₁ ++ l₂).takeWhile p = l₁ ++ l₂.takeWhile p := by
  induction l₁ with
  | nil => simp
  | cons a l₁ ih =>
    have ha : p a = true := h a (by simp)
    simp [List.takeWhile_cons, ha, ih fun c hc => h c (by simp [hc])]

/-- dropWhile over an append whose left part satisfies the predicate. -/
theorem dropWhile_all_app {α : Type} (p : α → Bool) (l₁ l₂ : List α)
    (h : ∀ c ∈ l₁, p c = true) :
    (l₁ ++ l₂).dropWhile p = l₂.dropWhile p := by
  induction l₁ with
  | nil => simp
  | cons a l₁ ih =>
    have ha : p a = true := h a (by simp)
    simp [List.dropWhile_cons, ha, ih fun c hc => h c (by simp [hc])]

/-- When the suffix opens and closes around one-or-more whitespace then
one-or-more digits, the post-phrase matcher succeeds. -/
theorem matchAfter_isSome_of (ws ds post : List Char)
    (hws : ws ≠ []) (hwsAll : ∀ c ∈ ws, pySpace c = true)
    (hds : ds ≠ []) (hdsAll : ∀ c ∈ ds, c.isDigit = true) :
    (matchAfter (ws ++ ds ++ post)).isSome = true := by
  cases ds with
  | nil => exact absurd rfl hds
  | cons d ds =>
    have hd : d.isDigit = true := hdsAll d (by simp)
    have hdns : pySpace d = false := isDigit_not_pySpace d hd
    have htw : (ws ++ (d :: ds ++ post)).takeWhile pySpace = ws := by
      rw [takeWhile_all_app pySpace ws _ hwsAll]
      simp [List.takeWhile_cons, hdns]
    have hdw : (ws ++ (d :: ds ++ post)).dropWhile pySpace = d :: ds ++ post := by
      rw [dropWhile_all_app pySpace ws _ hwsAll]
      simp [List.dropWhile_cons, hdns]
    have hass : ws ++ (d :: ds) ++ post = ws ++ (d :: ds ++ post) := by
      simp [List.append_assoc]
    rw [matchAfter, hass, htw, hdw]
    cases ws with
    | nil => exact absurd rfl hws
    | cons w ws =>
      simp [List.takeWhile_cons, hd, List.isEmpty]

/-- When the post-phrase matcher succeeds, the suffix opens with
one-or-more whitespace then one-or-more digits. -/
theorem matchAfter_some_decomp (r : List Char) (n : Nat) (h : matchAfter r = some n) :
    ∃ ws ds post, r = ws ++ ds ++ post ∧
      ws ≠ [] ∧ (∀ c ∈ ws, pySpace c = true) ∧
      ds ≠ [] ∧ (∀ c ∈ ds, c.isDigit = true) := by
  rw [matchAfter] at h
  by_cases hws : (r.takeWhile pySpace).isEmpty
  · simp [hws] at h
  · by_cases hds : ((r.dropWhile pySpace).takeWhile Char.isDigit).isEmpty
    · simp [hws, hds] at h
    · refine ⟨r.takeWhile pySpace, (r.dropWhile pySpace).takeWhile Char.isDigit,
        (r.dropWhile pySpace).dropWhile Char.isDigit, ?_, ?_, ?_, ?_, ?_⟩
      · rw [List.append_assoc, List.takeWhile_append_dropWhile,
          List.takeWhile_append_dropWhile]
      · intro hnil
        rw [hnil] at hws
        exact hws rfl
      · intro c hc
        exact List.mem_takeWhile_imp hc
      · intro hnil
        rw [hnil] at hds
        exact hds rfl
      · intro c hc
        exact List.mem_takeWhile_imp hc

/-- The pattern never matches at the end of the text. -/
theorem attemptAt_nil : attemptAt [] = none := by decide

/-- The pattern matches at the front of a text exactly when the text
starts with a case-folded copy of the phrase, whitespace and digits. -/
theorem attemptAt_isSome_iff (l : List Char) :
    (attemptAt l).isSome = true ↔
      ∃ seg ws ds post, l = seg ++ ws ++ ds ++ post ∧
        seg.map Char.toLower = lowerPhrase ∧
        ws ≠ [] ∧ (∀ c ∈ ws, pySpace c = true) ∧
        ds ≠ [] ∧ (∀ c ∈ ds, c.isDigit = true) := by
  constructor
  · intro h
    rw [attemptAt] at h
    rcases Option.isSome_iff_exists.mp h with ⟨n, hn⟩
    rcases Option.bind_eq_some.mp hn with ⟨r, hr, hafter⟩
    rcases (matchPhraseAt_iff lowerPhrase l r).mp hr with ⟨seg, hl, hseg⟩
    rcases matchAfter_some_decomp r n hafter with ⟨ws, ds, post, hrdec, h1, h2, h3, h4⟩
    exact ⟨seg, ws, ds, post, by rw [hl, hrdec]; simp [List.append_assoc],
      hseg, h1, h2, h3, h4⟩
  · rintro ⟨seg, ws, ds, post, hl, hseg, h1, h2, h3, h4⟩
    rw [attemptAt]
    have hphrase : matchPhraseAt lowerPhrase l = some (ws ++ ds ++ post) :=
      (matchPhraseAt_iff lowerPhrase l (ws ++ ds ++ post)).mpr
        ⟨seg, by rw [hl]; simp [List.append_assoc], hseg⟩
    rw [hphrase, Option.some_bind]
    exact matchAfter_isSome_of ws ds post h1 h2 h3 h4

/-- If the pattern matches at some position, the leftmost scan finds a
match. -/
theorem findMarkerAux_isSome_of (pre r : List Char) (h : (attemptAt r).isSome = true) :
    (findMarkerAux (pre ++ r)).isSome = true := by
  induction pre with
  | nil =>
    cases r with
    | nil => simpa [findMarkerAux] using h
    | cons c t =>
      rw [List.nil_append, findMarkerAux]
      rcases Option.isSome_iff_exists.mp h with ⟨n, hn⟩
      simp [hn]
  | cons d pre ih =>
    rw [List.cons_append, findMarkerAux]
    cases hat : attemptAt (d :: (pre ++ r)) with
    | some n => simp
    | none => simpa using ih

/-- If the leftmost scan finds a match, the pattern matches at some
position. -/
theorem findMarkerAux_some_decomp :
    ∀ l : List Char, (findMarkerAux l).isSome = true →
      ∃ pre r, l = pre ++ r ∧ (attemptAt r).isSome = true := by
  intro l
  induction l with
  | nil =>
    intro h
    exact ⟨[], [], rfl, by simpa [findMarkerAux] using h⟩
  | cons c t ih =>
    intro h
    rw [findMarkerAux] at h
    cases hat : attemptAt (c :: t) with
    | some n => exact ⟨[], c :: t, rfl, by simp [hat]⟩
    | none =>
      rw [hat] at h
      rcases ih h with ⟨pre, r, hl, hr⟩
      exact ⟨c :: pre, r, by simp [hl], hr⟩

/-- The classification pattern occurs in a content string exactly when
that string contains, case-insensitively, the marker phrase followed by
whitespace and digits. -/
theorem findMarker_isSome_iff (s : String) :
    (findMarker s).isSome = true ↔ markerPresent s := by
  rw [findMarker, markerPresent]
  constructor
  · intro h
    rcases findMarkerAux_some_decomp s.data h with ⟨pre, r, hl, hr⟩
    rcases (attemptAt_isSome_iff r).mp hr with ⟨seg, ws, ds, post, hrdec, hseg, h1, h2, h3, h4⟩
    exact ⟨pre, seg, ws, ds, post, by rw [hl, hrdec]; simp [List.append_assoc],
      hseg, h1, h2, h3, h4⟩
  · rintro ⟨pre, seg, ws, ds, post, hl, hseg, h1, h2, h3, h4⟩
    have hr : (attemptAt (seg ++ ws ++ ds ++ post)).isSome = true :=
      (attemptAt_isSome_iff _).mpr ⟨seg, ws, ds, post, rfl, hseg, h1, h2, h3, h4⟩
    have hl2 : s.data = pre ++ (seg ++ ws ++ ds ++ post) := by
      rw [hl]; simp [List.append_assoc]
    rw [hl2]
    exact findMarkerAux_isSome_of pre _ hr

/-- The empty needle is contained in every haystack. -/
theorem hasSub_nil (l : List Char) : hasSub [] l = true := by
  cases l <;> simp [hasSub, frontMatch, List.isEmpty]

/-- The emitted matches of the text search fold, file by file. -/
theorem foldl_search_results (term ext : String) :
    ∀ (files : List SFile) (acc : SearchOut),
      (files.foldl (searchStep term ext) acc).results =
        acc.results ++ files.flatMap (fileMatches term ext) := by
  intro files
  induction files with
  | nil => intro acc; simp
  | cons f files ih =>
    intro acc
    rw [List.foldl_cons, ih]
    by_cases hq : qualifiesSearch ext f.name = true
    · cases hl : f.lines with
      | none => simp [searchStep, fileMatches, hq, hl]
      | some ls => simp [searchStep, fileMatches, hq, hl, List.append_assoc]
    · have hqf : qualifiesSearch ext f.name = false := by simpa using hq
      simp [searchStep, fileMatches, hqf]

/-- The match counter of the text search fold, file by file. -/
theorem foldl_search_count (term ext : String) :
    ∀ (files : List SFile) (acc : SearchOut),
      (files.foldl (searchStep term ext) acc).count =
        acc.count + (files.flatMap (fileMatches term ext)).length := by
  intro files
  induction files with
  | nil => intro acc; simp
  | cons f files ih =>
    intro acc
    rw [List.foldl_cons, ih]
    by_cases hq : qualifiesSearch ext f.name = true
    · cases hl : f.lines with
      | none => simp [searchStep, fileMatches, hq, hl]
      | some ls =>
        simp only [searchStep, fileMatches, hq, hl, if_true, List.flatMap_cons,
          List.length_append]
        simp [hq, hl]
        omega
    · have hqf : qualifiesSearch ext f.name = false := by simpa using hq
      simp [searchStep, fileMatches, hqf]

/-- The scanned-file counter of the text search fold, file by file. -/
theorem foldl_search_total (term ext : String) :
    ∀ (files : List SFile) (acc : SearchOut),
      (files.foldl (searchStep term ext) acc).total =
        acc.total + files.countP (fun f => qualifiesSearch ext f.name) := by
  intro files
  induction files with
  | nil => intro acc; simp
  | cons f files ih =>
    intro acc
    rw [List.foldl_cons, ih]
    by_cases hq : qualifiesSearch ext f.name = true
    · cases hl : f.lines with
      | none =>
        simp [searchStep, hq, hl, List.countP_cons]
        omega
      | some ls =>
        simp [searchStep, hq, hl, List.countP_cons]
        omega
    · have hqf : qualifiesSearch ext f.name = false := by simpa using hq
      simp [searchStep, hqf, List.countP_cons]

/-- The status label is untouched by the text search fold. -/
theorem foldl_search_statusText (term ext : String) :
    ∀ (files : List SFile) (acc : SearchOut),
      (files.foldl (searchStep term ext) acc).statusText = acc.statusText := by
  intro files
  induction files with
  | nil => intro acc; simp
  | cons f files ih =>
    intro acc
    rw [List.foldl_cons, ih]
    by_cases hq : qualifiesSearch ext f.name = true
    · cases hl : f.lines with
      | none => simp [searchStep, hq, hl]
      | some ls => simp [searchStep, hq, hl]
    · have hqf : qualifiesSearch ext f.name = false := by simpa using hq
      simp [searchStep, hqf]

/-- Emitted matches of a text search run over a real folder. -/
theorem run_text_search_results (files : List SFile) (rawInput ext : String) :
    (run_text_search true files rawInput ext).results =
      files.flatMap (fileMatches (strLower (strTrim rawInput)) ext) := by
  rw [run_text_search]
  simp [foldl_search_results]

/-- Match count of a text search run over a real folder. -/
theorem run_text_search_count (files : List SFile) (rawInput ext : String) :
    (run_text_search true files rawInput ext).count =
      (files.flatMap (fileMatches (strLower (strTrim rawInput)) ext)).length := by
  rw [run_text_search]
  simp [foldl_search_count]

/-- Scanned file count of a text search run over a real folder. -/
theorem run_text_search_total (files : List SFile) (rawInput ext : String) :
    (run_text_search true files rawInput ext).total =
      files.countP (fun f => qualifiesSearch ext f.name) := by
  rw [run_text_search]
  simp [foldl_search_total]

/-- Membership in the per-file line scan: an element is emitted for the
line with 0-based index j exactly when the lowercased line contains the
term, and then it carries the index offset by the start index and the
stripped line. -/
theorem mem_searchLinesAux (term path : String) :
    ∀ (ls : List String) (i : Nat) (m : SearchMatch),
      m ∈ searchLinesAux term path i ls ↔
        ∃ j, ∃ h : j < ls.length,
          strContains (strLower (ls.get ⟨j, h⟩)) term = true ∧
          m = ⟨path, i + j, strTrim (ls.get ⟨j, h⟩)⟩ := by
  intro ls
  induction ls with
  | nil =>
    intro i m
    simp [searchLinesAux]
  | cons l rest ih =>
    intro i m
    rw [searchLinesAux]
    simp only [List.mem_append, ih]
    constructor
    · rintro (hm | ⟨j, hj, hc, hme⟩)
      · by_cases hc : strContains (strLower l) term
        · rw [if_pos hc] at hm
          simp only [List.mem_singleton] at hm
          exact ⟨0, by simp, by simpa using hc, by simp [hm]⟩
        · rw [if_neg hc] at hm
          simp at hm
      · exact ⟨j + 1, by simpa using hj,
          by simpa using hc, by simpa [Nat.add_assoc, Nat.add_comm 1 j] using hme⟩
    · rintro ⟨j, hj, hc, hme⟩
      cases j with
      | zero =>
        left
        simp only [List.get] at hc hme
        rw [if_pos hc]
        simpa using hme
      | succ j =>
        right
        refine ⟨j, by simpa using hj, by simpa using hc, ?_⟩
        simpa [Nat.add_assoc, Nat.add_comm 1 j] using hme

/-- The pass status comes exactly from a zero count. -/
theorem statusOf_passed_iff (n : Nat) : statusOf n = Status.Passed ↔ n = 0 := by
  rw [statusOf]
  by_cases h : n = 0 <;> simp [h]

/-- The displayed rows of the comparison fold, file by file. -/
theorem foldl_cmp_displayed (ext filterStatus : String) :
    ∀ (files : List CFile) (acc : CompareOut),
      (files.foldl (cmpStep ext filterStatus) acc).displayed =
        acc.displayed ++ files.flatMap (dispOf ext filterStatus) := by
  intro files
  induction files with
  | nil => intro acc; simp
  | cons f files ih =>
    intro acc
    rw [List.foldl_cons, ih]
    by_cases hq : qualifiesCmp ext f.name = true
    · cases hn : fileClass f with
      | none => simp [cmpStep, dispOf, hq, hn]
      | some n =>
        simp only [cmpStep, dispOf, hq, hn, if_true, List.flatMap_cons]
        split <;> simp [List.append_assoc]
    · have hqf : qualifiesCmp ext f.name = false := by simpa using hq
      simp [cmpStep, dispOf, hqf]

/-- The passed counter of the comparison fold, file by file. -/
theorem foldl_cmp_passed (ext filterStatus : String) :
    ∀ (files : List CFile) (acc : CompareOut),
      (files.foldl (cmpStep ext filterStatus) acc).passed =
        acc.passed + files.countP (passedP ext) := by
  intro files
  induction files with
  | nil => intro acc; simp
  | cons f files ih =>
    intro acc
    rw [List.foldl_cons, ih]
    by_cases hq : qualifiesCmp ext f.name = true
    · cases hn : fileClass f with
      | none => simp [cmpStep, passedP, hq, hn, List.countP_cons]
      | some n =>
        by_cases hz : n = 0
        · have hps : statusOf n = Status.Passed := (statusOf_passed_iff n).mpr hz
          have hpv : passedP ext f = true := by simp [passedP, hq, hn, hz]
          simp [cmpStep, hq, hn, hps, hpv, List.countP_cons]
          omega
        · have hps : statusOf n ≠ Status.Passed := fun h => hz ((statusOf_passed_iff n).mp h)
          have hpv : passedP ext f = false := by simp [passedP, hn, hz]
          simp [cmpStep, hq, hn, hps, hpv, List.countP_cons]
    · have hqf : qualifiesCmp ext f.name = false := by simpa using hq
      simp [cmpStep, passedP, hqf, List.countP_cons]

/-- The failed counter of the comparison fold, file by file. -/
theorem foldl_cmp_failed (ext filterStatus : String) :
    ∀ (files : List CFile) (acc : CompareOut),
      (files.foldl (cmpStep ext filterStatus) acc).failed =
        acc.failed + files.countP (failedP ext) := by
  intro files
  induction files with
  | nil => intro acc; simp
  | cons f files ih =>
    intro acc
    rw [List.foldl_cons, ih]
    by_cases hq : qualifiesCmp ext f.name = true
    · cases hn : fileClass f with
      | none => simp [cmpStep, failedP, hq, hn, List.countP_cons]
      | some n =>
        by_cases hz : n = 0
        · have hps : statusOf n = Status.Passed := (statusOf_passed_iff n).mpr hz
          have hfv : failedP ext f = false := by simp [failedP, hn, hz]
          simp [cmpStep, hq, hn, hps, hfv, List.countP_cons]
        · have hps : statusOf n ≠ Status.Passed := fun h => hz ((statusOf_passed_iff n).mp h)
          have hfv : failedP ext f = true := by simp [failedP, hq, hn, hz]
          simp [cmpStep, hq, hn, hps, hfv, List.countP_cons]
          omega
    · have hqf : qualifiesCmp ext f.name = false := by simpa using hq
      simp [cmpStep, failedP, hqf, List.countP_cons]

/-- The total counter of the comparison fold, file by file. -/
theorem foldl_cmp_total (ext filterStatus : String) :
    ∀ (files : List CFile) (acc : CompareOut),
      (files.foldl (cmpStep ext filterStatus) acc).total =
        acc.total + files.countP (classifiedP ext) := by
  intro files
  induction files with
  | nil => intro acc; simp
  | cons f files ih =>
    intro acc
    rw [List.foldl_cons, ih]
    by_cases hq : qualifiesCmp ext f.name = true
    · cases hn : fileClass f with
      | none => simp [cmpStep, classifiedP, hq, hn, List.countP_cons]
      | some n =>
        simp [cmpStep, classifiedP, hq, hn, List.countP_cons]
        omega
    · have hqf : qualifiesCmp ext f.name = false := by simpa using hq
      simp [cmpStep, classifiedP, hqf, List.countP_cons]

/-- The status label is untouched by the comparison fold. -/
theorem foldl_cmp_statusText (ext filterStatus : String) :
    ∀ (files : List CFile) (acc : CompareOut),
      (files.foldl (cmpStep ext filterStatus) acc).statusText = acc.statusText := by
  intro files
  induction files with
  | nil => intro acc; simp
  | cons f files ih =>
    intro acc
    rw [List.foldl_cons, ih]
    by_cases hq : qualifiesCmp ext f.name = true
    · cases hn : fileClass f with
      | none => simp [cmpStep, hq, hn]
      | some n => simp [cmpStep, hq, hn]
    · have hqf : qualifiesCmp ext f.name = false := by simpa using hq
      simp [cmpStep, hqf]

/-- Displayed rows of a comparison run over a real folder. -/
theorem run_compare_displayed (files : List CFile) (ext filterStatus : String) :
    (run_compare_check true files ext filterStatus).displayed =
      files.flatMap (dispOf ext filterStatus) := by
  rw [run_compare_check]
  simp [foldl_cmp_displayed]

/-- Passed count of a comparison run over a real folder. -/
theorem run_compare_passed (files : List CFile) (ext filterStatus : String) :
    (run_compare_check true files ext filterStatus).passed = files.countP (passedP ext) := by
  rw [run_compare_check]
  simp [foldl_cmp_passed]

/-- Failed count of a comparison run over a real folder. -/
theorem run_compare_failed (files : List CFile) (ext filterStatus : String) :
    (run_compare_check true files ext filterStatus).failed = files.countP (failedP ext) := by
  rw [run_compare_check]
  simp [foldl_cmp_failed]

/-- Total count of a comparison run over a real folder. -/
theorem run_compare_total (files : List CFile) (ext filterStatus : String) :
    (run_compare_check true files ext filterStatus).total = files.countP (classifiedP ext) := by
  rw [run_compare_check]
  simp [foldl_cmp_total]

/-- Restricting the unfiltered display rows of one file by the status
filter gives exactly the rows the filtered run displays for it. -/
theorem dispOf_filter (ext filterStatus : String) (f : CFile) :
    (dispOf ext ("All") f).filter
        (fun r => filterStatus == "All" || filterStatus == statusStr r.status) =
      dispOf ext filterStatus f := by
  by_cases hq : qualifiesCmp ext f.name = true
  · cases hn : fileClass f with
    | none => simp [dispOf, hq, hn]
    | some n =>
      simp only [dispOf, hq, hn, if_true]
      have hall : (("All" : String) == "All" || ("All" : String) == statusStr (statusOf n)) =
          true := by simp
      rw [if_pos hall, List.filter_cons, List.filter_nil]
      simp [mkResult]
  · have hqf : qualifiesCmp ext f.name = false := by simpa using hq
    simp [dispOf, hqf]

/-- Every classified file is counted as passed or as failed, exclusively. -/
theorem countP_class_split (ext : String) (files : List CFile) :
    files.countP (classifiedP ext) =
      files.countP (passedP ext) + files.countP (failedP ext) := by
  induction files with
  | nil => simp
  | cons f files ih =>
    simp only [List.countP_cons, ih]
    by_cases hq : qualifiesCmp ext f.name = true
    · cases hn : fileClass f with
      | none =>
        have h1 : classifiedP ext f = false := by simp [classifiedP, hn]
        have h2 : passedP ext f = false := by simp [passedP, hn]
        have h3 : failedP ext f = false := by simp [failedP, hn]
        simp [h1, h2, h3]
      | some n =>
        have h1 : classifiedP ext f = true := by simp [classifiedP, hq, hn]
        by_cases hz : n = 0
        · have h2 : passedP ext f = true := by simp [passedP, hq, hn, hz]
          have h3 : failedP ext f = false := by simp [failedP, hn, hz]
          simp [h1, h2, h3]
          omega
        · have h2 : passedP ext f = false := by simp [passedP, hn, hz]
          have h3 : failedP ext f = true := by simp [failedP, hq, hn, hz]
          simp [h1, h2, h3]
          omega
    · have hqf : qualifiesCmp ext f.name = false := by simpa using hq
      have h1 : classifiedP ext f = false := by simp [classifiedP, hqf]
      have h2 : passedP ext f = false := by simp [passedP, hqf]
      have h3 : failedP ext f = false := by simp [failedP, hqf]
      simp [h1, h2, h3]

/-- C8: for both operations, when the supplied root path is not an
existing directory the run aborts before scanning any file: it returns
no results, zero counts, and the user-visible invalid-folder warning,
independently of the folder content, and no error is raised (both
operations are total functions). -/
theorem C8_invalid_folder_aborts :
    ∀ (sfiles : List SFile) (cfiles : List CFile) (rawInput ext₁ ext₂ fst : String),
      run_text_search false sfiles rawInput ext₁ = ⟨[], 0, 0, "⚠️ Invalid folder"⟩ ∧
      run_compare_check false cfiles ext₂ fst = ⟨[], 0, 0, 0, "⚠️ Invalid folder"⟩ := by
  intro sfiles cfiles rawInput ext₁ ext₂ fst
  exact ⟨rfl, rfl⟩

/-- C10: after every run of the comparison checker the total equals the
passed count plus the failed count, and the summary string of a real run
reports exactly that sum as its total. -/
theorem C10_total_is_sum :
    (∀ (isdir : Bool) (files : List CFile) (ext fst : String),
        (run_compare_check isdir files ext fst).total =
          (run_compare_check isdir files ext fst).passed +
            (run_compare_check isdir files ext fst).failed) ∧
    (∀ (files : List CFile) (ext fst : String),
        (run_compare_check true files ext fst).statusText =
          "🧾 Scanned " ++
            toString ((run_compare_check true files ext fst).passed +
              (run_compare_check true files ext fst).failed) ++
            " files → ✅ " ++ toString (run_compare_check true files ext fst).passed ++
            " Passed | ❌ " ++ toString (run_compare_check true files ext fst).failed ++
            " Failed") := by
  have hsum : ∀ (isdir : Bool) (files : List CFile) (ext fst : String),
      (run_compare_check isdir files ext fst).total =
        (run_compare_check isdir files ext fst).passed +
          (run_compare_check isdir files ext fst).failed := by
    intro isdir files ext fst
    cases isdir with
    | false => rfl
    | true =>
      rw [run_compare_total, run_compare_passed, run_compare_failed]
      exact countP_class_split ext files
  refine ⟨hsum, ?_⟩
  intro files ext fst
  have hs : (run_compare_check true files ext fst).statusText =
      "🧾 Scanned " ++ toString (run_compare_check true files ext fst).total ++
        " files → ✅ " ++ toString (run_compare_check true files ext fst).passed ++
        " Passed | ❌ " ++ toString (run_compare_check true files ext fst).failed ++
        " Failed" := rfl
  rw [hs, hsum true files ext fst]

/-- C1: every comparison result displayed by any run has status Passed
exactly when its captured unequal count is zero, and Failed otherwise;
consequently the status of a result is a function of its unequal count
alone, across arbitrary runs. -/
theorem C1_status_determined_by_unequal_count :
    (∀ (files : List CFile) (ext fst : String) (r : ComparisonResult),
        r ∈ (run_compare_check true files ext fst).displayed →
          r.status = (if r.unequalCount = 0 then Status.Passed else Status.Failed)) ∧
    (∀ (files₁ files₂ : List CFile) (ext₁ fst₁ ext₂ fst₂ : String)
        (r₁ r₂ : ComparisonResult),
        r₁ ∈ (run_compare_check true files₁ ext₁ fst₁).displayed →
        r₂ ∈ (run_compare_check true files₂ ext₂ fst₂).displayed →
        r₁.unequalCount = r₂.unequalCount → r₁.status = r₂.status) := by
  have hmain : ∀ (files : List CFile) (ext fst : String) (r : ComparisonResult),
      r ∈ (run_compare_check true files ext fst).displayed →
        r.status = (if r.unequalCount = 0 then Status.Passed else Status.Failed) := by
    intro files ext fst r hr
    rw [run_compare_displayed] at hr
    rcases List.mem_flatMap.mp hr with ⟨f, _, hdf⟩
    rw [dispOf] at hdf
    by_cases hq : qualifiesCmp ext f.name = true
    · rw [if_pos hq] at hdf
      cases hn : fileClass f with
      | none => simp only [hn] at hdf; simp at hdf
      | some n =>
        simp only [hn] at hdf
        by_cases hd : (fst == "All" || fst == statusStr (statusOf n)) = true
        · rw [if_pos hd] at hdf
          simp only [List.mem_singleton] at hdf
          subst hdf
          rfl
        · rw [if_neg hd] at hdf
          simp at hdf
    · rw [if_neg hq] at hdf
      simp at hdf
  refine ⟨hmain, ?_⟩
  intro files₁ files₂ ext₁ fst₁ ext₂ fst₂ r₁ r₂ h1 h2 heq
  rw [hmain files₁ ext₁ fst₁ r₁ h1, hmain files₂ ext₂ fst₂ r₂ h2, heq]

/-- C3: the three summary counters of a comparison run do not depend on
the status filter, and the displayed rows under any filter are exactly
the rows of the unfiltered run whose status the filter admits. -/
theorem C3_status_filter_display_only :
    ∀ (files : List CFile) (ext fst : String),
      (run_compare_check true files ext fst).passed =
          (run_compare_check true files ext ("All")).passed ∧
      (run_compare_check true files ext fst).failed =
          (run_compare_check true files ext ("All")).failed ∧
      (run_compare_check true files ext fst).total =
          (run_compare_check true files ext ("All")).total ∧
      (run_compare_check true files ext fst).displayed =
        ((run_compare_check true files ext ("All")).displayed).filter
          (fun r => fst == "All" || fst == statusStr r.status) := by
  intro files ext fst
  refine ⟨?_, ?_, ?_, ?_⟩
  · rw [run_compare_passed, run_compare_passed]
  · rw [run_compare_failed, run_compare_failed]
  · rw [run_compare_total, run_compare_total]
  · rw [run_compare_displayed, run_compare_displayed, List.filter_flatMap]
    have hfun : (fun f => (dispOf ext ("All") f).filter
        (fun r => fst == "All" || fst == statusStr r.status)) = dispOf ext fst :=
      funext (dispOf_filter ext fst)
    rw [hfun]

/-- C2: the classification pattern fires exactly on content containing,
case-insensitively, the marker phrase followed by whitespace and one or
more digits; a scanned file is counted toward the three counters only
through that pattern and every displayed row comes from a file whose
extracted text contains the marker; when the marker is absent the file
contributes to no count and no row. -/
theorem C2_marker_phrase_gates_counting :
    (∀ s : String, (findMarker s).isSome = true ↔ markerPresent s) ∧
    (∀ (files : List CFile) (ext fst : String),
      (run_compare_check true files ext fst).total = files.countP (classifiedP ext) ∧
      (run_compare_check true files ext fst).passed = files.countP (passedP ext) ∧
      (run_compare_check true files ext fst).failed = files.countP (failedP ext) ∧
      ∀ r ∈ (run_compare_check true files ext fst).displayed,
        ∃ f ∈ files, r.filePath = f.name ∧
          ∃ s, extractContent f = some s ∧ markerPresent s) := by
  refine ⟨findMarker_isSome_iff, ?_⟩
  intro files ext fst
  refine ⟨run_compare_total files ext fst, run_compare_passed files ext fst,
    run_compare_failed files ext fst, ?_⟩
  intro r hr
  rw [run_compare_displayed] at hr
  rcases List.mem_flatMap.mp hr with ⟨f, hf, hdf⟩
  rw [dispOf] at hdf
  by_cases hq : qualifiesCmp ext f.name = true
  · rw [if_pos hq] at hdf
    cases hn : fileClass f with
    | none => simp only [hn] at hdf; simp at hdf
    | some n =>
      simp only [hn] at hdf
      by_cases hd : (fst == "All" || fst == statusStr (statusOf n)) = true
      · rw [if_pos hd] at hdf
        simp only [List.mem_singleton] at hdf
        subst hdf
        rw [fileClass] at hn
        rcases Option.bind_eq_some.mp hn with ⟨s, hes, hfm⟩
        exact ⟨f, hf, rfl, s, hes, (findMarker_isSome_iff s).mp (by rw [hfm]; rfl)⟩
      · rw [if_neg hd] at hdf
        simp at hdf
  · rw [if_neg hq] at hdf
    simp at hdf

/-- C2 witness: a concrete report carrying the marker with count three
is counted, and its content satisfies the declarative marker reading. -/
theorem C2_marker_phrase_witness :
    (run_compare_check true
        [⟨"r2.lst", none,
          some ("Number of Observations with Some Compared Variables Unequal:  3")⟩]
        (".lst") ("All")).total = 1 ∧
      markerPresent ("Number of Observations with Some Compared Variables Unequal:  3") := by
  constructor
  · rw [(C2_marker_phrase_gates_counting.2
      [⟨"r2.lst", none,
        some ("Number of Observations with Some Compared Variables Unequal:  3")⟩]
      (".lst") ("All")).1]
    decide
  · exact (C2_marker_phrase_gates_counting.1
      ("Number of Observations with Some Compared Variables Unequal:  3")).mp (by decide)

/-- C1 witness: the displayed row of a concrete passing report has the
status its unequal count dictates. -/
theorem C1_status_witness :
    (⟨"r1.lst", Status.Passed, 0, "#c6f6c6"⟩ : ComparisonResult).status =
      (if (⟨"r1.lst", Status.Passed, 0, "#c6f6c6"⟩ : ComparisonResult).unequalCount = 0
        then Status.Passed else Status.Failed) :=
  C1_status_determined_by_unequal_count.1
    [⟨"r1.lst", none,
      some ("Number of Observations with Some Compared Variables Unequal: 0")⟩]
    (".lst") ("All") ⟨"r1.lst", Status.Passed, 0, "#c6f6c6"⟩ (by decide)

/-- C4: in a text search over a folder holding a qualifying readable
file, a line produces the match carrying its 1-based number and stripped
text exactly when the lowercased line contains the lowercased (already
trimmed) search term as a contiguous substring, and every emitted match
carries the 1-based number and stripped text of the line it came from. -/
theorem C4_line_match_characterisation :
    ∀ (S ext : String) (f : SFile) (ls : List String),
      strTrim S = S → qualifiesSearch ext f.name = true → f.lines = some ls →
      ∀ (i : Nat) (h : i < ls.length),
        ((⟨f.name, i + 1, strTrim (ls.get ⟨i, h⟩)⟩ : SearchMatch) ∈
            (run_text_search true [f] S ext).results ↔
          ∃ pre post,
            (strLower (ls.get ⟨i, h⟩)).data = pre ++ (strLower S).data ++ post) ∧
        ∀ m ∈ (run_text_search true [f] S ext).results,
          ∃ j, ∃ hj : j < ls.length, m.lineNumber = j + 1 ∧
            m.lineText = strTrim (ls.get ⟨j, hj⟩) ∧ m.filePath = f.name := by
  intro S ext f ls hS hq hl i h
  have hres : (run_text_search true [f] S ext).results =
      searchLinesAux (strLower S) f.name 1 ls := by
    rw [run_text_search_results, hS]
    simp [fileMatches, hq, hl]
  constructor
  · rw [hres]
    constructor
    · intro hm
      rcases (mem_searchLinesAux (strLower S) f.name ls 1 _).mp hm with ⟨j, hj, hc, hme⟩
      simp only [SearchMatch.mk.injEq] at hme
      have hij : i = j := by omega
      subst hij
      rw [strContains] at hc
      exact (hasSub_iff (strLower S).data (strLower (ls.get ⟨i, hj⟩)).data).mp hc
    · rintro ⟨pre, post, hdec⟩
      refine (mem_searchLinesAux (strLower S) f.name ls 1 _).mpr ⟨i, h, ?_, ?_⟩
      · rw [strContains]
        exact (hasSub_iff (strLower S).data (strLower (ls.get ⟨i, h⟩)).data).mpr
          ⟨pre, post, hdec⟩
      · simp [SearchMatch.mk.injEq, Nat.add_comm]
  · intro m hm
    rw [hres] at hm
    rcases (mem_searchLinesAux (strLower S) f.name ls 1 m).mp hm with ⟨j, hj, hc, hme⟩
    subst hme
    exact ⟨j, hj, Nat.add_comm 1 j, rfl, rfl⟩

/-- C4 witness: a concrete lowercase term is found on the concrete line
that contains it in mixed case, at its 1-based position. -/
theorem C4_line_match_witness :
    (⟨"a.sas", 2, "has ERROR here"⟩ : SearchMatch) ∈
      (run_text_search true [⟨"a.sas", some ["x", "has ERROR here"]⟩]
        ("error") ("All")).results :=
  ((C4_line_match_characterisation ("error") ("All")
      ⟨"a.sas", some ["x", "has ERROR here"]⟩ ["x", "has ERROR here"]
      (by decide) (by decide) rfl 1 (by decide)).1).mpr
    ⟨("has ".data), (" here".data), by decide⟩

/-- C5: a text search run counts exactly the files passing its filename
filters, and those filters only ever admit names whose lowercase form
ends in one of the three fixed extensions, for every filter value, the
sentinel included; a specific filter admits only names the sentinel also
admits. -/
theorem C5_search_extension_allowlist :
    ∀ (ext rawInput : String) (files : List SFile),
      (run_text_search true files rawInput ext).total =
          files.countP (fun f => qualifiesSearch ext f.name) ∧
      ∀ name : String, qualifiesSearch ext name = true →
        (strEndsWith (strLower name) (".sas") || strEndsWith (strLower name) (".txt") ||
            strEndsWith (strLower name) (".log")) = true ∧
        qualifiesSearch ("All") name = true := by
  intro ext rawInput files
  refine ⟨run_text_search_total files rawInput ext, ?_⟩
  intro name hq
  rw [qualifiesSearch, Bool.and_eq_true] at hq
  refine ⟨hq.2, ?_⟩
  rw [qualifiesSearch]
  simp [hq.2]

/-- C5 witness: an uppercase SAS name qualifies under its own filter and
under the sentinel, and a folder holding it counts one scanned file. -/
theorem C5_search_extension_witness :
    (run_text_search true [⟨"A.SAS", some []⟩] ("x") (".sas")).total = 1 ∧
      qualifiesSearch ("All") ("A.SAS") = true := by
  have h := C5_search_extension_allowlist (".sas") ("x") [⟨"A.SAS", some []⟩]
  exact ⟨by rw [h.1]; decide, (h.2 ("A.SAS") (by decide)).2⟩

/-- C6 counterexample: a folder holding one qualifying file that cannot
be opened still reports one scanned file while emitting no match, so an
unopenable file does contribute to the reported file count. -/
theorem C6_unopenable_counted_counterexample :
    (run_text_search true [⟨"locked.sas", none⟩] ("x") ("All")).total = 1 ∧
    (run_text_search true [⟨"locked.sas", none⟩] ("x") ("All")).results = [] := by
  exact ⟨by decide, by decide⟩

/-- C6 amended: a file that cannot be opened is skipped without aborting
the scan, contributing no match and no match count, but it does
contribute to the scanned-file count whenever it passes the filename
filters, because the counter is incremented before the file is opened. -/
theorem C6_unopenable_skipped_but_counted :
    ∀ (pre post : List SFile) (f : SFile) (rawInput ext : String),
      f.lines = none →
        (run_text_search true (pre ++ f :: post) rawInput ext).results =
            (run_text_search true (pre ++ post) rawInput ext).results ∧
        (run_text_search true (pre ++ f :: post) rawInput ext).count =
            (run_text_search true (pre ++ post) rawInput ext).count ∧
        (run_text_search true (pre ++ f :: post) rawInput ext).total =
            (run_text_search true (pre ++ post) rawInput ext).total +
              (if qualifiesSearch ext f.name then 1 else 0) := by
  intro pre post f rawInput ext hf
  have hfm : fileMatches (strLower (strTrim rawInput)) ext f = [] := by
    simp only [fileMatches, hf]
    split <;> rfl
  refine ⟨?_, ?_, ?_⟩
  · rw [run_text_search_results, run_text_search_results, List.flatMap_append,
      List.flatMap_append, List.flatMap_cons, hfm]
    simp
  · rw [run_text_search_count, run_text_search_count, List.flatMap_append,
      List.flatMap_append, List.flatMap_cons, hfm]
    simp
  · rw [run_text_search_total, run_text_search_total, List.countP_append,
      List.countP_append, List.countP_cons]
    cases hq : qualifiesSearch ext f.name <;> (simp [hq]; try omega)

/-- C6 witness: adding an unopenable file to a folder leaves the matches
unchanged and raises the scanned-file count by one. -/
theorem C6_unopenable_witness :
    (run_text_search true [⟨"a.sas", some ["error x"]⟩, ⟨"locked.sas", none⟩]
        ("error") ("All")).results =
      (run_text_search true [⟨"a.sas", some ["error x"]⟩] ("error") ("All")).results ∧
    (run_text_search true [⟨"a.sas", some ["error x"]⟩, ⟨"locked.sas", none⟩]
        ("error") ("All")).total =
      (run_text_search true [⟨"a.sas", some ["error x"]⟩] ("error") ("All")).total + 1 := by
  have h := C6_unopenable_skipped_but_counted [⟨"a.sas", some ["error x"]⟩] []
    ⟨"locked.sas", none⟩ ("error") ("All") rfl
  exact ⟨h.1, h.2.2.trans (by decide)⟩

/-- C7: a file whose name ends in the paginated extension is extracted
by joining its page texts in page order with newline separators, any
other file by its plain text content; a run over one file counts it
exactly when it qualifies and the marker pattern fires on the content so
extracted. -/
theorem C7_pdf_page_join_extraction :
    ∀ (f : CFile),
      (∀ pages : List String, strEndsWith f.name (".pdf") = true → f.pages = some pages →
          extractContent f = some (strJoin ("\n") pages)) ∧
      (strEndsWith f.name (".pdf") = false → extractContent f = f.text) ∧
      (∀ ext fst : String,
        (run_compare_check true [f] ext fst).total =
          (if qualifiesCmp ext f.name && ((extractContent f).bind findMarker).isSome
            then 1 else 0)) := by
  intro f
  refine ⟨?_, ?_, ?_⟩
  · intro pages hpdf hp
    rw [extractContent, if_pos hpdf, hp]
    rfl
  · intro hpdf
    rw [extractContent, if_neg (by simp [hpdf])]
  · intro ext fst
    rw [run_compare_total]
    simp [List.countP_cons, classifiedP, fileClass]

/-- C7 witness: a paginated report whose marker phrase sits on one page
and whose count sits on the next is extracted as the newline join and is
classified. -/
theorem C7_pdf_page_join_witness :
    extractContent
        ⟨"r.pdf",
          some ["Number of Observations with Some Compared Variables Unequal:", "0"],
          none⟩ =
      some (strJoin ("\n")
        ["Number of Observations with Some Compared Variables Unequal:", "0"]) ∧
    (run_compare_check true
        [⟨"r.pdf",
          some ["Number of Observations with Some Compared Variables Unequal:", "0"],
          none⟩] (".pdf") ("All")).total = 1 := by
  have h := C7_pdf_page_join_extraction
    ⟨"r.pdf", some ["Number of Observations with Some Compared Variables Unequal:", "0"],
      none⟩
  exact ⟨h.1 ["Number of Observations with Some Compared Variables Unequal:", "0"]
      (by decide) rfl,
    (h.2.2 (".pdf") ("All")).trans (by decide)⟩

/-- C9: a search input that strips to the empty string matches every
line, so for every qualifying readable file of the folder every line is
emitted as a match with its 1-based number and stripped text. -/
theorem C9_empty_term_matches_every_line :
    ∀ (rawInput ext : String) (files : List SFile) (f : SFile) (ls : List String),
      strTrim rawInput = "" → f ∈ files → qualifiesSearch ext f.name = true →
      f.lines = some ls →
      ∀ (i : Nat) (h : i < ls.length),
        (⟨f.name, i + 1, strTrim (ls.get ⟨i, h⟩)⟩ : SearchMatch) ∈
          (run_text_search true files rawInput ext).results := by
  intro rawInput ext files f ls hT hf hq hl i h
  rw [run_text_search_results, hT]
  refine List.mem_flatMap.mpr ⟨f, hf, ?_⟩
  have hfm : fileMatches (strLower ("")) ext f = searchLinesAux (strLower ("")) f.name 1 ls := by
    simp [fileMatches, hq, hl]
  rw [hfm]
  refine (mem_searchLinesAux (strLower ("")) f.name ls 1 _).mpr ⟨i, h, ?_, ?_⟩
  · rw [strContains]
    exact hasSub_nil _
  · simp [SearchMatch.mk.injEq, Nat.add_comm]

/-- C9 witness: a whitespace-only input emits the single line of a
concrete log file as a match. -/
theorem C9_empty_term_witness :
    (⟨"a.log", 1, "x"⟩ : SearchMatch) ∈
      (run_text_search true [⟨"a.log", some ["x"]⟩] ("  ") ("All")).results :=
  C9_empty_term_matches_every_line ("  ") ("All") [⟨"a.log", some ["x"]⟩]
    ⟨"a.log", some ["x"]⟩ ["x"] (by decide) (by decide) (by decide) rfl 0 (by decide)

end TSCC
